import Mathlib

set_option maxHeartbeats 1000000

/-!
Verification of dgeene/parallel-appium (the Appium gateway hub).

The development shallowly embeds the parts of `src/appium_hub` that the
properties below are about:

* `session_pool.py` (`SessionPool`): the session registry, the port
  allocator, session creation/deletion, and the background eviction pass.
  Python's mutable state (`self._sessions`, `self._used_ports`) is passed
  explicitly as a `PoolState`.  Each public operation runs entirely under
  `self._lock`, so each is modelled as one atomic state transformer.
* `gateway.py` (`AppiumGateway`): the route table (in decorator
  registration order, which is the order Starlette matches routes in), the
  header filtering of the reverse proxy, and the `POST /session`
  choreography.
* The backend (`server_manager.py` / the spawned Appium process) is an
  external effect; its observable outcomes at each call site (start
  succeeded / returned failure / raised, stop raised or not, HTTP status of
  the forwarded request) are parameters of the embedded functions, exactly
  matching the branches the Python code has for them.

Timestamps (`time.time()`) are modelled as `Nat` values supplied by the
caller; `uuid.uuid4()` is modelled as a caller-supplied string.
-/

/-! ## Definitions -/

/-- Configuration of a `SessionPool` (constructor arguments of
`SessionPool.__init__` in `session_pool.py`).  `max_sessions` is an `Int`
because a Python int may be negative or zero. -/
structure PoolConfig where
  port_range_start : Nat
  port_range_end : Nat
  max_sessions : Int
  session_timeout : Nat
  deriving DecidableEq

/-- The `SessionInfo` dataclass of `session_pool.py`.  The
`server_manager` field is represented by its observable state, namely its
`port` (`server_manager.port`); `created_at`/`last_used` are the wall-clock
stamps taken at creation and on each `get_session`. -/
structure SessionInfo where
  session_id : String
  port : Nat
  created_at : Nat
  last_used : Nat
  device_udid : Option String
  device_name : Option String
  deriving DecidableEq

/-- The registry state guarded by `self._lock`: the `self._sessions` dict
(as an association list) and the `self._used_ports` set. -/
structure PoolState where
  sessions : List (String × SessionInfo)
  used_ports : Finset Nat
  deriving DecidableEq

/-- Python `dict.get`: the value bound to a key, if present. -/
def dictGet : List (String × SessionInfo) → String → Option SessionInfo
  | [], _ => none
  | kv :: rest, k => if kv.1 = k then some kv.2 else dictGet rest k

/-- Python `del d[k]` (and the erasing half of `d[k] = v`): drop every
binding of the key.  A dict built with `dictInsert` binds each key at most
once, so this removes exactly the one binding when it exists. -/
def eraseKey (k : String) : List (String × SessionInfo) → List (String × SessionInfo)
  | [] => []
  | kv :: rest => if kv.1 = k then eraseKey k rest else kv :: eraseKey k rest

/-- Python `d[k] = v`: replace any existing binding of the key.  Binding
order is irrelevant to the model, so the new binding goes to the end. -/
def dictInsert (k : String) (v : SessionInfo) (l : List (String × SessionInfo)) :
    List (String × SessionInfo) :=
  eraseKey k l ++ [(k, v)]

/-- The pool's `self._available_ports`, i.e. Python
`list(range(port_range_start, port_range_end + 1))`. -/
def available_ports (cfg : PoolConfig) : List Nat :=
  List.range' cfg.port_range_start (cfg.port_range_end + 1 - cfg.port_range_start)

/-- `SessionPool._get_next_available_port`: the first port of
`self._available_ports` not in `used_ports`, or `None`. -/
def get_next_available_port (cfg : PoolConfig) (used : Finset Nat) : Option Nat :=
  (available_ports cfg).find? (fun p => decide (p ∉ used))

/-- Outcome of `AppiumServerManager(...)` construction plus
`server_manager.start()` at the call site inside
`SessionPool.create_session`: `start` returned True, returned False, or the
construction/call raised an exception. -/
inductive StartOutcome
  | ok
  | fail
  | exn
  deriving DecidableEq

/-- `SessionPool.create_session` (session_pool.py lines 60-110).  The whole
body runs under `with self._lock:`, hence one atomic transformer.  `uuid`
stands for the generated `str(uuid.uuid4())` and `now` for `time.time()`.
On the exception path, the source removes the port from `_used_ports` only
`if port in self._used_ports`; since the add has not happened yet at any
point that can raise, this is `Finset.erase`, a no-op there. -/
def create_session (cfg : PoolConfig) (start : StartOutcome) (uuid : String) (now : Nat)
    (device_udid device_name : Option String) (s : PoolState) : Option String × PoolState :=
  if cfg.max_sessions ≤ (s.sessions.length : Int) then
    (none, s)
  else
    match get_next_available_port cfg s.used_ports with
    | none => (none, s)
    | some port =>
      match start with
      | .exn => (none, { s with used_ports := s.used_ports.erase port })
      | .fail => (none, s)
      | .ok =>
        let info : SessionInfo :=
          { session_id := uuid, port := port, created_at := now, last_used := now,
            device_udid := device_udid, device_name := device_name }
        (some uuid,
          { sessions := dictInsert uuid info s.sessions,
            used_ports := insert port s.used_ports })

/-- `SessionPool.delete_session` (session_pool.py lines 127-152).
`stopRaises` is the outcome of `session.server_manager.stop()` at this call
site: the source calls `stop()` first and only then frees the port and
removes the record, so when `stop()` raises, the `except` branch returns
False with the state untouched.  The boolean that `stop()` itself returns
is discarded by the source. -/
def delete_session (stopRaises : Bool) (session_id : String) (s : PoolState) :
    Bool × PoolState :=
  match dictGet s.sessions session_id with
  | none => (false, s)
  | some info =>
    if stopRaises then
      (false, s)
    else
      (true,
        { sessions := eraseKey session_id s.sessions,
          used_ports := s.used_ports.erase info.port })

/-- `SessionPool.get_session`: looks the record up and refreshes its
`last_used` to the current time `now`, returning the refreshed record. -/
def get_session (now : Nat) (session_id : String) (s : PoolState) :
    Option SessionInfo × PoolState :=
  match dictGet s.sessions session_id with
  | none => (none, s)
  | some info =>
    let touched := { info with last_used := now }
    (some touched, { s with sessions := dictInsert session_id touched s.sessions })

/-- The ids collected by one pass of `SessionPool._cleanup_expired_sessions`:
those whose idle time `now - last_used` strictly exceeds `session_timeout`.
Python's float subtraction is negative when `last_used > now` and then the
comparison is false, matching truncated `Nat` subtraction. -/
def expired_ids (timeout now : Nat) (s : PoolState) : List String :=
  (s.sessions.filter (fun kv => decide (timeout < now - kv.2.last_used))).map (fun kv => kv.1)

/-- One iteration of the `while True` loop of
`SessionPool._cleanup_expired_sessions`: under the lock, collect the
expired ids and delete each via `delete_session`.  `stopRaises` gives the
outcome of each deleted session's `server_manager.stop()`. -/
def cleanup_pass (stopRaises : String → Bool) (timeout now : Nat) (s : PoolState) : PoolState :=
  (expired_ids timeout now s).foldl (fun st sid => (delete_session (stopRaises sid) sid st).2) s

/-- The pool state right after `SessionPool.__init__`: no sessions, no used
ports. -/
def initial_state : PoolState := { sessions := [], used_ports := ∅ }

/-- A sample session record on port 4723, used by concrete instances. -/
def sampleInfo : SessionInfo :=
  { session_id := "sid-1", port := 4723, created_at := 0, last_used := 0,
    device_udid := none, device_name := none }

/-- A pool state holding exactly the sample session. -/
def sampleState : PoolState :=
  { sessions := [("sid-1", sampleInfo)], used_ports := {4723} }

/-- The successive steps of `SessionPool.create_session`. -/
inductive CreateAction
  | capacityCheck
  | reservePort
  | generateSessionId
  | instantiateSupervisor
  | startBackend
  | markPortUsed
  | insertRecord
  deriving DecidableEq

/-- A create_session step together with whether `self._lock` is held while
it runs. -/
structure CreateEvent where
  action : CreateAction
  lockHeld : Bool
  deriving DecidableEq

/-- The steps of `SessionPool.create_session` in source order
(session_pool.py lines 60-110), each tagged with whether the registry lock
is held: the entire body, including `AppiumServerManager(...)` construction
and `server_manager.start()` (which spawns the child process and polls
readiness over HTTP), is inside the `with self._lock:` block. -/
def create_session_trace : List CreateEvent :=
  [⟨.capacityCheck, true⟩, ⟨.reservePort, true⟩, ⟨.generateSessionId, true⟩,
   ⟨.instantiateSupervisor, true⟩, ⟨.startBackend, true⟩,
   ⟨.markPortUsed, true⟩, ⟨.insertRecord, true⟩]

/-- Python `str.lower()` on a single character, for the ASCII range that
HTTP header names live in. -/
def lowerChar (c : Char) : Char :=
  if 65 ≤ c.toNat ∧ c.toNat ≤ 90 then Char.ofNat (c.toNat + 32) else c

/-- Python `k.lower()` as used on header names in proxy_to_appium
(gateway.py line 154); header names are ASCII, where this is exactly
`str.lower()`. -/
def toLowerAscii (s : String) : String :=
  ⟨s.data.map lowerChar⟩

/-- The hop-by-hop set of proxy_to_appium (gateway.py line 150). -/
def excluded_headers : List String := ["host", "content-length", "connection", "upgrade"]

/-- An incoming request as seen by proxy_to_appium: method, header map and
raw body bytes. -/
structure ProxyRequest where
  method : String
  headers : List (String × String)
  body : List Nat
  deriving DecidableEq

/-- The request sent to the backend by proxy_to_appium. -/
structure OutboundRequest where
  method : String
  url : String
  headers : List (String × String)
  body : List Nat
  deriving DecidableEq

/-- The header dict comprehension of proxy_to_appium (gateway.py lines
151-155): keep exactly the headers whose lower-cased name is not in
excluded_headers. -/
def filter_headers (headers : List (String × String)) : List (String × String) :=
  headers.filter (fun kv => decide (toLowerAscii kv.1 ∉ excluded_headers))

/-- The outbound request that proxy_to_appium hands to httpx (gateway.py
lines 142-164): same method and body, target session_url/session/tail,
filtered headers. -/
def proxy_outbound (session_url tail : String) (req : ProxyRequest) : OutboundRequest :=
  { method := req.method,
    url := session_url ++ "/session/" ++ tail,
    headers := filter_headers req.headers,
    body := req.body }

/-- A sample incoming request carrying both hop-by-hop and ordinary
headers. -/
def sampleProxyRequest : ProxyRequest :=
  { method := "POST",
    headers := [("Host", "hub:4444"), ("Content-Type", "application/json"),
      ("Content-Length", "27")],
    body := [123, 125] }

/-- The HTTP methods the gateway routes mention. -/
inductive HttpMethod
  | GET
  | POST
  | PUT
  | DELETE
  | PATCH
  deriving DecidableEq

/-- One segment of a Starlette route path pattern. -/
inductive PathPart
  | lit (s : String)
  | param
  | tail
  deriving DecidableEq

/-- A registered FastAPI route: its handler name, allowed methods and path
pattern. -/
structure Route where
  name : String
  methods : List HttpMethod
  pattern : List PathPart
  deriving DecidableEq

/-- Whether a route pattern matches the slash-separated segments of a
request path.  `param` is a plain converter such as the session_id
parameter (exactly one segment); `tail` is a path converter (the
`path:path` parameter of the proxy route), which matches everything after
the preceding slash — at least one further segment, which may be the empty
string for a trailing slash. -/
def partsMatch : List PathPart → List String → Bool
  | [], segs => segs.isEmpty
  | PathPart.lit s :: ps, seg :: rest => (s == seg) && partsMatch ps rest
  | PathPart.param :: ps, _ :: rest => partsMatch ps rest
  | PathPart.tail :: _, _ :: _ => true
  | _ :: _, [] => false

/-- The routes of AppiumGateway._setup_routes in registration order
(gateway.py lines 35-197).  The catch-all proxy route is registered before
the info route. -/
def gateway_routes : List Route :=
  [{ name := "root", methods := [.GET], pattern := [] },
   { name := "health_check", methods := [.GET], pattern := [.lit "health"] },
   { name := "list_sessions_route", methods := [.GET], pattern := [.lit "sessions"] },
   { name := "create_session_route", methods := [.POST], pattern := [.lit "session"] },
   { name := "delete_session_route", methods := [.DELETE],
     pattern := [.lit "session", .param] },
   { name := "proxy_to_appium", methods := [.GET, .POST, .PUT, .DELETE, .PATCH],
     pattern := [.lit "session", .param, .tail] },
   { name := "get_session_info", methods := [.GET],
     pattern := [.lit "session", .param, .lit "info"] }]

/-- Starlette dispatch: the first registered route whose method and path
pattern match the request. -/
def match_route (m : HttpMethod) (segs : List String) : Option Route :=
  gateway_routes.find? (fun r => decide (m ∈ r.methods) && partsMatch r.pattern segs)

/-- Outcome of the forwarded POST session_url/session call inside the
gateway create_session handler: a response with some status code, an
httpx.RequestError, or any other exception. -/
inductive PostOutcome
  | status (code : Nat)
  | reqError
  | otherError
  deriving DecidableEq

/-- What the POST /session handler produces: the success payload (carrying
the hub session id) or an HTTP error status. -/
inductive GatewayResult
  | ok (hub_session_id : String)
  | error (code : Nat)
  deriving DecidableEq

/-- The POST /session route handler (gateway.py lines 57-107).  Faithful
to the source's exception flow: every `raise HTTPException` inside the
`try` block is itself caught by the trailing `except Exception` handler,
which calls `delete_session` once more (a no-op when the id is already
gone, and a no-op call on `None` when creation failed) and raises
HTTPException(500); only `httpx.RequestError` reaches its dedicated
handler and produces 503.  `now` is the creation timestamp, `now2` the
timestamp of the `get_session_url` lookup that refreshes `last_used`. -/
def gateway_create_session (cfg : PoolConfig) (start : StartOutcome) (stopRaises : Bool)
    (post : PostOutcome) (uuid : String) (now now2 : Nat)
    (device_udid device_name : Option String) (s : PoolState) : GatewayResult × PoolState :=
  match create_session cfg start uuid now device_udid device_name s with
  | (none, s1) => (.error 500, s1)
  | (some sid, s1) =>
    let s2 := (get_session now2 sid s1).2
    match post with
    | .reqError => (.error 503, (delete_session stopRaises sid s2).2)
    | .otherError => (.error 500, (delete_session stopRaises sid s2).2)
    | .status code =>
      if code ≠ 200 then
        let s3 := (delete_session stopRaises sid s2).2
        (.error 500, (delete_session stopRaises sid s3).2)
      else
        (.ok sid, s2)

/-- The ports of the live records, in registry order. -/
def ports_of (l : List (String × SessionInfo)) : List Nat :=
  l.map (fun kv => kv.2.port)

/-- One observable registry transition: a create (with a fresh uuid — the
model of uuid4 collision-freedom), a delete, or one background eviction
pass (which deletes via the same delete_session). -/
inductive PoolStep (cfg : PoolConfig) : PoolState → PoolState → Prop
  | create (start : StartOutcome) (uuid : String) (now : Nat)
      (device_udid device_name : Option String) (s : PoolState)
      (hfresh : dictGet s.sessions uuid = none) :
      PoolStep cfg s (create_session cfg start uuid now device_udid device_name s).2
  | delete (stopRaises : Bool) (session_id : String) (s : PoolState) :
      PoolStep cfg s (delete_session stopRaises session_id s).2
  | cleanup (stopRaises : String → Bool) (now : Nat) (s : PoolState) :
      PoolStep cfg s (cleanup_pass stopRaises cfg.session_timeout now s)

/-- Registry states reachable from the freshly initialised pool. -/
def Reachable (cfg : PoolConfig) (s : PoolState) : Prop :=
  Relation.ReflTransGen (PoolStep cfg) initial_state s

/-- The registry invariant: keys are unique, no two records share a port,
used_ports is exactly the set of live ports, every used port lies in the
configured range, and the record count respects max_sessions. -/
structure PoolInv (cfg : PoolConfig) (s : PoolState) : Prop where
  keys_nodup : (s.sessions.map Prod.fst).Nodup
  ports_nodup : (ports_of s.sessions).Nodup
  ports_eq : s.used_ports = (ports_of s.sessions).toFinset
  ports_range : s.used_ports ⊆ (available_ports cfg).toFinset
  count_le : (s.sessions.length : Int) ≤ max cfg.max_sessions 0

/-! ## Theorems -/

theorem dictGet_eq_none_iff (l : List (String × SessionInfo)) (k : String) :
    dictGet l k = none ↔ k ∉ l.map Prod.fst := by
  induction l with
  | nil => simp [dictGet]
  | cons kv rest ih =>
    by_cases h : kv.1 = k
    · simp [dictGet, h]
    · simp [dictGet, h, ih, Ne.symm h]

theorem eraseKey_of_not_mem {l : List (String × SessionInfo)} {k : String}
    (h : k ∉ l.map Prod.fst) : eraseKey k l = l := by
  induction l with
  | nil => rfl
  | cons kv rest ih =>
    simp only [List.map_cons, List.mem_cons, not_or] at h
    rw [eraseKey, if_neg (fun hk => h.1 hk.symm), ih h.2]

theorem eraseKey_sublist (k : String) (l : List (String × SessionInfo)) :
    List.Sublist (eraseKey k l) l := by
  induction l with
  | nil => simp [eraseKey]
  | cons kv rest ih =>
    rw [eraseKey]
    by_cases h : kv.1 = k
    · rw [if_pos h]
      exact ih.cons kv
    · rw [if_neg h]
      exact ih.cons₂ kv

theorem dictGet_eraseKey_self (k : String) (l : List (String × SessionInfo)) :
    dictGet (eraseKey k l) k = none := by
  induction l with
  | nil => rfl
  | cons kv rest ih =>
    rw [eraseKey]
    by_cases h : kv.1 = k
    · rw [if_pos h]
      exact ih
    · rw [if_neg h, dictGet, if_neg h]
      exact ih

theorem eraseKey_append (k : String) (l₁ l₂ : List (String × SessionInfo)) :
    eraseKey k (l₁ ++ l₂) = eraseKey k l₁ ++ eraseKey k l₂ := by
  induction l₁ with
  | nil => rfl
  | cons kv rest ih =>
    by_cases h : kv.1 = k
    · simp [eraseKey, h, ih]
    · simp [eraseKey, h, ih]

theorem dictGet_append (l₁ l₂ : List (String × SessionInfo)) (k : String) :
    dictGet (l₁ ++ l₂) k =
      match dictGet l₁ k with
      | some v => some v
      | none => dictGet l₂ k := by
  induction l₁ with
  | nil => simp [dictGet]
  | cons kv rest ih =>
    by_cases h : kv.1 = k
    · simp [dictGet, h]
    · simp [dictGet, h, ih]

theorem dictGet_dictInsert_self (k : String) (v : SessionInfo)
    (l : List (String × SessionInfo)) : dictGet (dictInsert k v l) k = some v := by
  rw [dictInsert, dictGet_append, dictGet_eraseKey_self]
  simp [dictGet]

theorem port_mem_of_dictGet {l : List (String × SessionInfo)} {k : String} {v : SessionInfo}
    (h : dictGet l k = some v) : v.port ∈ l.map (fun kv => kv.2.port) := by
  induction l with
  | nil => simp [dictGet] at h
  | cons kv rest ih =>
    rw [dictGet] at h
    by_cases hk : kv.1 = k
    · rw [if_pos hk] at h
      cases h
      simp
    · rw [if_neg hk] at h
      simp [ih h]

theorem dictGet_of_mem_nodup {l : List (String × SessionInfo)} {k : String} {v : SessionInfo}
    (hnd : (l.map Prod.fst).Nodup) (h : (k, v) ∈ l) : dictGet l k = some v := by
  induction l with
  | nil => simp at h
  | cons kv rest ih =>
    simp only [List.map_cons, List.nodup_cons] at hnd
    rcases List.mem_cons.mp h with rfl | hmem
    · simp [dictGet]
    · rw [dictGet]
      by_cases hk : kv.1 = k
      · exact absurd (hk ▸ (List.mem_map.mpr ⟨(k, v), hmem, rfl⟩)) hnd.1
      · rw [if_neg hk]
        exact ih hnd.2 hmem

theorem find?_min_of_sorted {p : Nat → Bool} :
    ∀ {l : List Nat}, l.Sorted (· ≤ ·) → ∀ {a : Nat}, l.find? p = some a →
      ∀ b ∈ l, p b = true → a ≤ b := by
  intro l
  induction l with
  | nil => intro _ a h; simp [List.find?] at h
  | cons x xs ih =>
    intro hs a h b hb hpb
    rw [List.sorted_cons] at hs
    by_cases hx : p x = true
    · rw [List.find?_cons_of_pos xs hx] at h
      cases h
      rcases List.mem_cons.mp hb with rfl | hb2
      · exact le_refl b
      · exact hs.1 b hb2
    · rw [List.find?_cons_of_neg xs (by simp [hx])] at h
      rcases List.mem_cons.mp hb with rfl | hb2
      · exact absurd hpb hx
      · exact ih hs.2 h b hb2 hpb

theorem mem_available_ports (cfg : PoolConfig) (h : cfg.port_range_start ≤ cfg.port_range_end)
    (q : Nat) : q ∈ available_ports cfg ↔
      cfg.port_range_start ≤ q ∧ q ≤ cfg.port_range_end := by
  unfold available_ports
  rw [List.mem_range'_1]
  omega

theorem available_ports_sorted (cfg : PoolConfig) :
    (available_ports cfg).Sorted (· ≤ ·) :=
  (List.pairwise_lt_range' _ _).imp (fun h => le_of_lt h)

theorem get_next_available_port_mem {cfg : PoolConfig} {used : Finset Nat} {p : Nat}
    (h : get_next_available_port cfg used = some p) :
    p ∈ available_ports cfg ∧ p ∉ used := by
  rw [get_next_available_port] at h
  have hp := List.find?_some h
  exact ⟨List.mem_of_find?_eq_some h, by simpa using hp⟩

/-- C8: for every used-port set and configured range with start ≤ end, the
allocator returns the smallest free port of the range when one exists
(iteration over list(range(start, end+1)) is ascending), and returns None
exactly when every port of the range is used. -/
theorem allocator_returns_lowest_free_port (cfg : PoolConfig) (used : Finset Nat)
    (h : cfg.port_range_start ≤ cfg.port_range_end) :
    (∀ p, get_next_available_port cfg used = some p →
      (cfg.port_range_start ≤ p ∧ p ≤ cfg.port_range_end) ∧ p ∉ used ∧
        ∀ q, cfg.port_range_start ≤ q → q ≤ cfg.port_range_end → q ∉ used → p ≤ q) ∧
    (get_next_available_port cfg used = none ↔
      ∀ q, cfg.port_range_start ≤ q → q ≤ cfg.port_range_end → q ∈ used) := by
  constructor
  · intro p hp
    obtain ⟨hmem, hfree⟩ := get_next_available_port_mem hp
    refine ⟨(mem_available_ports cfg h p).mp hmem, hfree, ?_⟩
    intro q hq1 hq2 hqfree
    exact find?_min_of_sorted (available_ports_sorted cfg) hp q
      ((mem_available_ports cfg h q).mpr ⟨hq1, hq2⟩) (decide_eq_true hqfree)
  · rw [get_next_available_port, List.find?_eq_none]
    constructor
    · intro hall q hq1 hq2
      have := hall q ((mem_available_ports cfg h q).mpr ⟨hq1, hq2⟩)
      simpa using this
    · intro hall q hq
      obtain ⟨hq1, hq2⟩ := (mem_available_ports cfg h q).mp hq
      simpa using hall q hq1 hq2

/-- Closed instance of the C8 theorem: on the range 4723-4725 with 4723
used, the allocator returns 4724, the smallest free port. -/
theorem allocator_returns_lowest_free_port_witness :
    (4723 : Nat) ≤ 4725 ∧
      get_next_available_port ⟨4723, 4725, 10, 1800⟩ {4723} = some 4724 ∧
      4723 ≤ 4724 ∧ 4724 ≤ 4725 ∧ (4724 : Nat) ∉ ({4723} : Finset Nat) := by
  refine ⟨by decide, by decide, ?_⟩
  have := (allocator_returns_lowest_free_port ⟨4723, 4725, 10, 1800⟩ {4723} (by decide)).1
    4724 (by decide)
  exact ⟨this.1.1, this.1.2, this.2.1⟩

/-- C1 counterexample: "sid-1" is a known id of sampleState, yet when the
backend stop raises, delete_session returns false, the port 4723 stays in
used_ports, and the record stays in the registry — the claimed conjunction
(returns true, port freed, id removed) is false at this input. -/
theorem delete_known_id_keeps_port_on_stop_exn :
    dictGet sampleState.sessions "sid-1" = some sampleInfo ∧
    ¬((delete_session true "sid-1" sampleState).1 = true ∧
      4723 ∉ (delete_session true "sid-1" sampleState).2.used_ports ∧
      dictGet (delete_session true "sid-1" sampleState).2.sessions "sid-1" = none) := by
  decide

/-- C1 (amended): delete on an unknown id returns false and leaves the
state unchanged.  Delete on a known id calls backend stop() first, before
any book-keeping: when stop does not raise, the port is released, the id
removed and true returned; when stop raises, the except branch returns
false with the record and the port left in place. -/
theorem delete_session_contract (stopRaises : Bool) (sid : String) (s : PoolState) :
    (dictGet s.sessions sid = none → delete_session stopRaises sid s = (false, s)) ∧
    (∀ info, dictGet s.sessions sid = some info →
      (stopRaises = true → delete_session stopRaises sid s = (false, s)) ∧
      (stopRaises = false →
        (delete_session stopRaises sid s).1 = true ∧
        (delete_session stopRaises sid s).2.used_ports = s.used_ports.erase info.port ∧
        dictGet (delete_session stopRaises sid s).2.sessions sid = none)) := by
  constructor
  · intro h
    simp [delete_session, h]
  · intro info h
    constructor
    · intro hb
      subst hb
      simp [delete_session, h]
    · intro hb
      subst hb
      simp [delete_session, h, dictGet_eraseKey_self]

/-- Closed instance of the C1 theorem at the sample state with a
non-raising stop: the port is freed and the id removed. -/
theorem delete_session_contract_witness :
    (delete_session false "sid-1" sampleState).1 = true ∧
    (delete_session false "sid-1" sampleState).2.used_ports =
      sampleState.used_ports.erase sampleInfo.port ∧
    dictGet (delete_session false "sid-1" sampleState).2.sessions "sid-1" = none :=
  ((delete_session_contract false "sid-1" sampleState).2 sampleInfo (by decide)).2 rfl

/-- C10: with max_sessions ≤ 0, the capacity guard
len(self._sessions) >= self.max_sessions always fires, so create_session
returns None and leaves the registry and used_ports unchanged before any
port is reserved or backend started. -/
theorem create_session_nonpositive_max (cfg : PoolConfig) (hm : cfg.max_sessions ≤ 0)
    (start : StartOutcome) (uuid : String) (now : Nat)
    (device_udid device_name : Option String) (s : PoolState) :
    create_session cfg start uuid now device_udid device_name s = (none, s) := by
  rw [create_session, if_pos (le_trans hm (Int.natCast_nonneg _))]

/-- Closed instance of the C10 theorem: a pool configured with
max_sessions = -1 refuses creation even on the empty state with every
port free. -/
theorem create_session_nonpositive_max_witness :
    create_session ⟨4723, 4724, -1, 1800⟩ .ok "u1" 5 none none initial_state =
      (none, initial_state) :=
  create_session_nonpositive_max ⟨4723, 4724, -1, 1800⟩ (by decide) .ok "u1" 5 none none
    initial_state

/-- C5 counterexample: it is not the case that the supervisor is
instantiated and started with the lock released — both steps of
create_session carry lockHeld = true. -/
theorem create_session_start_not_outside_lock :
    ¬(∀ e ∈ create_session_trace,
      (e.action = CreateAction.instantiateSupervisor ∨
        e.action = CreateAction.startBackend) → e.lockHeld = false) := by
  decide

/-- C5 (amended): every step of create_session, including supervisor
instantiation and backend start, runs while the registry lock is held —
the code never releases the lock for the backend start. -/
theorem create_session_all_steps_under_lock :
    create_session_trace.all (fun e => e.lockHeld) = true := by
  decide

/-- C7: for every proxied request the outbound header map contains no key
whose lower-case form is in the hop-by-hop set, contains exactly the other
incoming headers with values unchanged, and the method and body are
forwarded verbatim. -/
theorem proxy_header_hygiene (session_url tail : String) (req : ProxyRequest) :
    (∀ kv ∈ (proxy_outbound session_url tail req).headers,
      toLowerAscii kv.1 ∉ excluded_headers) ∧
    (∀ kv ∈ (proxy_outbound session_url tail req).headers, kv ∈ req.headers) ∧
    (∀ kv ∈ req.headers, toLowerAscii kv.1 ∉ excluded_headers →
      kv ∈ (proxy_outbound session_url tail req).headers) ∧
    (proxy_outbound session_url tail req).method = req.method ∧
    (proxy_outbound session_url tail req).body = req.body := by
  refine ⟨?_, ?_, ?_, rfl, rfl⟩
  · intro kv hkv
    have := (List.mem_filter.mp hkv).2
    simpa using this
  · intro kv hkv
    exact (List.mem_filter.mp hkv).1
  · intro kv hkv hex
    exact List.mem_filter.mpr ⟨hkv, by simpa using hex⟩

/-- Closed instance of the C7 theorem: the ordinary Content-Type header of
the sample request survives filtering unchanged and the method is
forwarded verbatim. -/
theorem proxy_header_hygiene_witness :
    ("Content-Type", "application/json") ∈
      (proxy_outbound "http://127.0.0.1:4723" "status" sampleProxyRequest).headers ∧
    (proxy_outbound "http://127.0.0.1:4723" "status" sampleProxyRequest).method =
      sampleProxyRequest.method :=
  ⟨(proxy_header_hygiene "http://127.0.0.1:4723" "status" sampleProxyRequest).2.2.1
      ("Content-Type", "application/json") (by decide) (by decide),
    (proxy_header_hygiene "http://127.0.0.1:4723" "status" sampleProxyRequest).2.2.2.1⟩

/-- C6: a GET request for /session/abc/info is dispatched to the catch-all
proxy_to_appium route (which forwards it to the backend), not to the
registered get_session_info handler, even though that handler's own
pattern matches the request — the info route is unreachable because the
catch-all is registered before it. -/
theorem info_route_shadowed_by_proxy :
    (match_route HttpMethod.GET ["session", "abc", "info"]).map Route.name =
      some "proxy_to_appium" ∧
    (gateway_routes.map Route.name).contains "get_session_info" = true ∧
    partsMatch [PathPart.lit "session", PathPart.param, PathPart.lit "info"]
      ["session", "abc", "info"] = true := by
  decide

/-- Shape of a failed create_session: the returned state has the same
sessions and the same used_ports as the input state. -/
theorem create_session_none_state {cfg : PoolConfig} {start : StartOutcome} {uuid : String}
    {now : Nat} {device_udid device_name : Option String} {s s1 : PoolState}
    (h : create_session cfg start uuid now device_udid device_name s = (none, s1)) :
    s1.sessions = s.sessions ∧ s1.used_ports = s.used_ports := by
  rw [create_session] at h
  by_cases hg : cfg.max_sessions ≤ (s.sessions.length : Int)
  · rw [if_pos hg] at h
    injection h with h1 h2
    subst h2
    exact ⟨rfl, rfl⟩
  · rw [if_neg hg] at h
    cases hp : get_next_available_port cfg s.used_ports with
    | none =>
      rw [hp] at h
      injection h with h1 h2
      subst h2
      exact ⟨rfl, rfl⟩
    | some port =>
      rw [hp] at h
      have hfree := (get_next_available_port_mem hp).2
      cases start with
      | exn =>
        injection h with h1 h2
        subst h2
        exact ⟨rfl, Finset.erase_eq_of_not_mem hfree⟩
      | fail =>
        injection h with h1 h2
        subst h2
        exact ⟨rfl, rfl⟩
      | ok => simp at h

/-- Shape of a successful create_session: the id is the generated uuid,
start succeeded, and the state gained exactly the new record and its
freshly reserved port. -/
theorem create_session_some_state {cfg : PoolConfig} {start : StartOutcome} {uuid : String}
    {now : Nat} {device_udid device_name : Option String} {s s1 : PoolState} {sid : String}
    (h : create_session cfg start uuid now device_udid device_name s = (some sid, s1)) :
    sid = uuid ∧ start = .ok ∧ ¬cfg.max_sessions ≤ (s.sessions.length : Int) ∧
    ∃ port, get_next_available_port cfg s.used_ports = some port ∧ port ∉ s.used_ports ∧
      s1.sessions = dictInsert uuid
        { session_id := uuid, port := port, created_at := now, last_used := now,
          device_udid := device_udid, device_name := device_name } s.sessions ∧
      s1.used_ports = insert port s.used_ports := by
  rw [create_session] at h
  by_cases hg : cfg.max_sessions ≤ (s.sessions.length : Int)
  · rw [if_pos hg] at h
    simp at h
  · rw [if_neg hg] at h
    cases hp : get_next_available_port cfg s.used_ports with
    | none =>
      rw [hp] at h
      simp at h
    | some port =>
      rw [hp] at h
      have hfree := (get_next_available_port_mem hp).2
      cases start with
      | exn => simp at h
      | fail => simp at h
      | ok =>
        injection h with h1 h2
        injection h1 with h1
        subst h1
        subst h2
        exact ⟨rfl, rfl, hg, port, rfl, hfree, rfl, rfl⟩

/-- Deleting an unknown id is a no-op returning false. -/
theorem delete_session_unknown (b : Bool) (sid : String) (s : PoolState)
    (h : dictGet s.sessions sid = none) : delete_session b sid s = (false, s) := by
  simp [delete_session, h]

/-- Re-binding a key twice over a dict that did not contain it appends a
single binding. -/
theorem created_touched_sessions {uuid : String} {info touched : SessionInfo}
    {l : List (String × SessionInfo)} (hfresh : dictGet l uuid = none) :
    dictInsert uuid touched (dictInsert uuid info l) = l ++ [(uuid, touched)] := by
  have hnotmem : uuid ∉ l.map Prod.fst := (dictGet_eq_none_iff l uuid).mp hfresh
  rw [dictInsert, dictInsert, eraseKey_append, eraseKey_of_not_mem hnotmem,
    eraseKey_of_not_mem hnotmem]
  simp [eraseKey]

/-- Erasing a freshly appended binding restores the original dict. -/
theorem eraseKey_append_single {uuid : String} {t : SessionInfo}
    {l : List (String × SessionInfo)} (hnotmem : uuid ∉ l.map Prod.fst) :
    eraseKey uuid (l ++ [(uuid, t)]) = l := by
  rw [eraseKey_append, eraseKey_of_not_mem hnotmem]
  simp [eraseKey]

/-- After a successful create of a fresh uuid, the get_session touch plus
a compensating delete (with a non-raising stop) restore the sessions list
and the used-port set exactly. -/
theorem compensation_restores_state {cfg : PoolConfig} {start : StartOutcome} {uuid : String}
    {now now2 : Nat} {device_udid device_name : Option String} {s s1 : PoolState}
    (hfresh : dictGet s.sessions uuid = none)
    (hcr : create_session cfg start uuid now device_udid device_name s = (some uuid, s1)) :
    (delete_session false uuid ((get_session now2 uuid s1).2)).2.sessions = s.sessions ∧
    (delete_session false uuid ((get_session now2 uuid s1).2)).2.used_ports = s.used_ports := by
  obtain ⟨-, -, -, port, hp, hfree, hse, hup⟩ := create_session_some_state hcr
  have hnotmem : uuid ∉ s.sessions.map Prod.fst := (dictGet_eq_none_iff _ _).mp hfresh
  have hlook1 : dictGet s1.sessions uuid = some
      ({ session_id := uuid, port := port, created_at := now, last_used := now,
         device_udid := device_udid, device_name := device_name } : SessionInfo) := by
    rw [hse]
    exact dictGet_dictInsert_self _ _ _
  have hgs : (get_session now2 uuid s1).2 = PoolState.mk
      (dictInsert uuid
        ({ session_id := uuid, port := port, created_at := now, last_used := now2,
           device_udid := device_udid, device_name := device_name } : SessionInfo)
        s1.sessions)
      s1.used_ports := by
    rw [get_session, hlook1]
  rw [hgs]
  have hsess2 : dictInsert uuid
      ({ session_id := uuid, port := port, created_at := now, last_used := now2,
         device_udid := device_udid, device_name := device_name } : SessionInfo) s1.sessions =
      s.sessions ++ [(uuid,
        ({ session_id := uuid, port := port, created_at := now, last_used := now2,
           device_udid := device_udid, device_name := device_name } : SessionInfo))] := by
    rw [hse]
    exact created_touched_sessions hfresh
  have hlook2 : dictGet (dictInsert uuid
      ({ session_id := uuid, port := port, created_at := now, last_used := now2,
         device_udid := device_udid, device_name := device_name } : SessionInfo) s1.sessions)
      uuid = some
      ({ session_id := uuid, port := port, created_at := now, last_used := now2,
         device_udid := device_udid, device_name := device_name } : SessionInfo) :=
    dictGet_dictInsert_self _ _ _
  simp only [delete_session, hlook2]
  constructor
  · rw [hsess2]
    exact eraseKey_append_single hnotmem
  · rw [hup]
    exact Finset.erase_insert hfree

/-- C2 counterexample: with a backend whose stop raises, a POST /session
whose forwarded backend create returns 500 fails (surfaced as an error)
yet leaves the just-created record in the registry: the compensating
delete fails, and the registry grows from 0 to 1 records with port 4723
still reserved. -/
theorem gateway_create_failure_leaks_session :
    (gateway_create_session ⟨4723, 4724, 2, 1800⟩ .ok true (.status 500) "u1" 5 6
        none none initial_state).1 = GatewayResult.error 500 ∧
    (gateway_create_session ⟨4723, 4724, 2, 1800⟩ .ok true (.status 500) "u1" 5 6
        none none initial_state).2.sessions.length = 1 ∧
    4723 ∈ (gateway_create_session ⟨4723, 4724, 2, 1800⟩ .ok true (.status 500) "u1" 5 6
        none none initial_state).2.used_ports ∧
    initial_state.sessions.length = 0 ∧ initial_state.used_ports = ∅ := by
  decide

/-- C2 (amended): provided the compensating delete's backend stop does not
raise, every failing execution of POST /session — capacity check failing,
port exhaustion, backend start returning failure or raising, forwarded
create returning non-200, transport error, or any other error — leaves
the registry size and the used-port set exactly as before the call. -/
theorem gateway_create_failure_restores_state (cfg : PoolConfig) (start : StartOutcome)
    (post : PostOutcome) (uuid : String) (now now2 : Nat)
    (device_udid device_name : Option String) (s : PoolState)
    (hfresh : dictGet s.sessions uuid = none) (c : Nat)
    (hc : (gateway_create_session cfg start false post uuid now now2
        device_udid device_name s).1 = GatewayResult.error c) :
    (gateway_create_session cfg start false post uuid now now2
        device_udid device_name s).2.sessions.length = s.sessions.length ∧
    (gateway_create_session cfg start false post uuid now now2
        device_udid device_name s).2.used_ports = s.used_ports := by
  cases hcr : create_session cfg start uuid now device_udid device_name s with
  | mk o s1 =>
    cases o with
    | none =>
      obtain ⟨hse, hup⟩ := create_session_none_state hcr
      simp only [gateway_create_session, hcr]
      exact ⟨by rw [hse], hup⟩
    | some sid =>
      have hsid : sid = uuid := (create_session_some_state hcr).1
      subst hsid
      obtain ⟨hsess, hused⟩ := compensation_restores_state hfresh hcr
      cases post with
      | reqError =>
        simp only [gateway_create_session, hcr]
        exact ⟨by rw [hsess], hused⟩
      | otherError =>
        simp only [gateway_create_session, hcr]
        exact ⟨by rw [hsess], hused⟩
      | status code =>
        by_cases hcode : code = 200
        · subst hcode
          rw [gateway_create_session, hcr] at hc
          simp at hc
        · have hd2 := delete_session_unknown false sid
            ((delete_session false sid ((get_session now2 sid s1).2)).2)
            (by rw [hsess]; exact hfresh)
          simp only [gateway_create_session, hcr, if_pos hcode, hd2]
          exact ⟨by rw [hsess], hused⟩

/-- Closed instance of the C2 theorem: the forwarded create returns 500
and the compensating delete (with a non-raising stop) restores the empty
registry and the empty used-port set. -/
theorem gateway_create_failure_restores_state_witness :
    (gateway_create_session ⟨4723, 4724, 2, 1800⟩ .ok false (.status 500) "u1" 5 6
        none none initial_state).2.sessions.length = initial_state.sessions.length ∧
    (gateway_create_session ⟨4723, 4724, 2, 1800⟩ .ok false (.status 500) "u1" 5 6
        none none initial_state).2.used_ports = initial_state.used_ports :=
  gateway_create_failure_restores_state ⟨4723, 4724, 2, 1800⟩ .ok (.status 500) "u1" 5 6
    none none initial_state (by decide) 500 (by decide)

theorem poolInv_initial (cfg : PoolConfig) : PoolInv cfg initial_state := by
  refine ⟨?_, ?_, ?_, ?_, ?_⟩ <;> simp [initial_state, ports_of, le_max_iff]

theorem ports_of_append (l₁ l₂ : List (String × SessionInfo)) :
    ports_of (l₁ ++ l₂) = ports_of l₁ ++ ports_of l₂ :=
  List.map_append _ l₁ l₂

/-- A value looked up by key contributes its port to the port list. -/
theorem port_of_dictGet_mem {l : List (String × SessionInfo)} {k : String} {v : SessionInfo}
    (h : dictGet l k = some v) : v.port ∈ ports_of l :=
  port_mem_of_dictGet h

/-- Erasing the binding of a live key removes exactly its port from the
port set, provided keys and ports are duplicate-free. -/
theorem ports_toFinset_eraseKey {l : List (String × SessionInfo)} {k : String} {v : SessionInfo}
    (hk : (l.map Prod.fst).Nodup) (hp : (ports_of l).Nodup)
    (h : dictGet l k = some v) :
    (ports_of (eraseKey k l)).toFinset = (ports_of l).toFinset.erase v.port := by
  induction l with
  | nil => simp [dictGet] at h
  | cons kv rest ih =>
    simp only [List.map_cons, List.nodup_cons] at hk
    simp only [ports_of, List.map_cons, List.nodup_cons] at hp
    rw [dictGet] at h
    by_cases hkk : kv.1 = k
    · rw [if_pos hkk] at h
      injection h with h
      subst h
      have hrest : eraseKey k rest = rest := by
        apply eraseKey_of_not_mem
        rw [← hkk]
        exact hk.1
      rw [eraseKey, if_pos hkk, hrest]
      have hvp : kv.2.port ∉ (ports_of rest).toFinset := by
        rw [List.mem_toFinset]
        exact hp.1
      simp only [ports_of, List.map_cons, List.toFinset_cons]
      exact (Finset.erase_insert hvp).symm
    · rw [if_neg hkk] at h
      have hvne : kv.2.port ≠ v.port := by
        intro he
        exact hp.1 (he ▸ port_of_dictGet_mem h)
      rw [eraseKey, if_neg hkk]
      simp only [ports_of, List.map_cons, List.toFinset_cons]
      rw [Finset.erase_insert_of_ne hvne]
      have hih := ih hk.2 hp.2 h
      simp only [ports_of] at hih
      rw [hih]

/-- create_session preserves the registry invariant when the generated
uuid is fresh. -/
theorem poolInv_create {cfg : PoolConfig} {s : PoolState} (inv : PoolInv cfg s)
    (start : StartOutcome) (uuid : String) (now : Nat)
    (device_udid device_name : Option String)
    (hfresh : dictGet s.sessions uuid = none) :
    PoolInv cfg (create_session cfg start uuid now device_udid device_name s).2 := by
  cases hcr : create_session cfg start uuid now device_udid device_name s with
  | mk o s1 =>
    cases o with
    | none =>
      obtain ⟨hse, hup⟩ := create_session_none_state hcr
      exact ⟨hse ▸ inv.keys_nodup, hse ▸ inv.ports_nodup,
        by rw [hse, hup]; exact inv.ports_eq,
        by rw [hup]; exact inv.ports_range,
        by rw [hse]; exact inv.count_le⟩
    | some sid =>
      obtain ⟨hsid, -, hg, port, hp, hfree, hse, hup⟩ := create_session_some_state hcr
      subst hsid
      have hnotmem : sid ∉ s.sessions.map Prod.fst := (dictGet_eq_none_iff _ _).mp hfresh
      have happ : s1.sessions = s.sessions ++ [(sid,
          ({ session_id := sid, port := port, created_at := now, last_used := now,
             device_udid := device_udid, device_name := device_name } : SessionInfo))] := by
        rw [hse, dictInsert, eraseKey_of_not_mem hnotmem]
      have hmem_range : port ∈ available_ports cfg := (get_next_available_port_mem hp).1
      have hport_new : port ∉ ports_of s.sessions := by
        intro hmem
        exact hfree (inv.ports_eq ▸ List.mem_toFinset.mpr hmem)
      constructor
      · rw [happ, List.map_append, List.nodup_append]
        refine ⟨inv.keys_nodup, by simp, ?_⟩
        intro a ha hb
        simp at hb
        subst hb
        exact hnotmem ha
      · rw [happ]
        have hruns : ports_of (s.sessions ++ [(sid,
            ({ session_id := sid, port := port, created_at := now, last_used := now,
               device_udid := device_udid, device_name := device_name } : SessionInfo))]) =
            ports_of s.sessions ++ [port] := by
          rw [ports_of_append]
          rfl
        rw [hruns, List.nodup_append]
        refine ⟨inv.ports_nodup, by simp, ?_⟩
        intro a ha hb
        simp at hb
        subst hb
        exact hport_new ha
      · rw [hup, happ, inv.ports_eq, ports_of_append]
        show insert port (ports_of s.sessions).toFinset =
          ((ports_of s.sessions) ++ [port]).toFinset
        rw [List.toFinset_append, Finset.insert_eq, Finset.union_comm]
        simp
      · rw [hup]
        exact Finset.insert_subset (List.mem_toFinset.mpr hmem_range) inv.ports_range
      · rw [happ]
        simp only [List.length_append, List.length_singleton]
        have hle : (s.sessions.length : Int) + 1 ≤ cfg.max_sessions := by omega
        have : ((s.sessions.length + 1 : Nat) : Int) = (s.sessions.length : Int) + 1 := by
          push_cast
          ring
        rw [this]
        exact le_trans hle (le_max_left _ _)

/-- delete_session preserves the registry invariant. -/
theorem poolInv_delete {cfg : PoolConfig} {s : PoolState} (inv : PoolInv cfg s)
    (stopRaises : Bool) (sid : String) :
    PoolInv cfg (delete_session stopRaises sid s).2 := by
  cases hl : dictGet s.sessions sid with
  | none =>
    rw [delete_session_unknown _ _ _ hl]
    exact inv
  | some info =>
    cases stopRaises with
    | true =>
      have hid : delete_session true sid s = (false, s) := by
        simp [delete_session, hl]
      rw [hid]
      exact inv
    | false =>
      have hres : delete_session false sid s = (true,
          { sessions := eraseKey sid s.sessions,
            used_ports := s.used_ports.erase info.port }) := by
        simp [delete_session, hl]
      rw [hres]
      constructor
      · exact inv.keys_nodup.sublist ((eraseKey_sublist sid _).map Prod.fst)
      · exact inv.ports_nodup.sublist ((eraseKey_sublist sid _).map _)
      · show s.used_ports.erase info.port = (ports_of (eraseKey sid s.sessions)).toFinset
        rw [ports_toFinset_eraseKey inv.keys_nodup inv.ports_nodup hl, inv.ports_eq]
      · exact le_trans (Finset.erase_subset _ _) inv.ports_range
      · have hlen : (eraseKey sid s.sessions).length ≤ s.sessions.length :=
          (eraseKey_sublist sid _).length_le
        have := inv.count_le
        show ((eraseKey sid s.sessions).length : Int) ≤ max cfg.max_sessions 0
        omega

/-- Folding delete_session over any id list preserves the invariant. -/
theorem poolInv_foldl_delete {cfg : PoolConfig} (ids : List String)
    (stopRaises : String → Bool) :
    ∀ s : PoolState, PoolInv cfg s →
      PoolInv cfg (ids.foldl (fun st sid => (delete_session (stopRaises sid) sid st).2) s) := by
  induction ids with
  | nil =>
    intro s inv
    exact inv
  | cons sid rest ih =>
    intro s inv
    exact ih _ (poolInv_delete inv _ _)

/-- Every PoolStep preserves the registry invariant. -/
theorem poolInv_step {cfg : PoolConfig} {s s' : PoolState} (inv : PoolInv cfg s)
    (h : PoolStep cfg s s') : PoolInv cfg s' := by
  cases h with
  | create start uuid now device_udid device_name s hfresh =>
    exact poolInv_create inv start uuid now device_udid device_name hfresh
  | delete stopRaises sid s =>
    exact poolInv_delete inv stopRaises sid
  | cleanup stopRaises now s =>
    exact poolInv_foldl_delete _ _ _ inv

/-- The invariant holds in every reachable state. -/
theorem poolInv_reachable {cfg : PoolConfig} {s : PoolState} (h : Reachable cfg s) :
    PoolInv cfg s := by
  induction h with
  | refl => exact poolInv_initial cfg
  | @tail b c hrt hstep ih => exact poolInv_step ih hstep

/-- C3: in every state reachable from the fresh pool by any sequence of
create, delete and eviction passes, no two live records share a port,
used_ports is exactly the set of ports of the live records, and the number
of live records equals the number of used ports. -/
theorem reachable_ports_bijective (cfg : PoolConfig) (s : PoolState) (h : Reachable cfg s) :
    (ports_of s.sessions).Nodup ∧
    s.used_ports = (ports_of s.sessions).toFinset ∧
    s.used_ports.card = s.sessions.length := by
  have inv := poolInv_reachable h
  refine ⟨inv.ports_nodup, inv.ports_eq, ?_⟩
  rw [inv.ports_eq, List.toFinset_card_of_nodup inv.ports_nodup]
  simp [ports_of]

/-- Closed instance of the C3 theorem after one create step from the
fresh pool. -/
theorem reachable_ports_bijective_witness :
    (ports_of (create_session ⟨4723, 4724, 2, 1800⟩ .ok "u1" 5 none none
        initial_state).2.sessions).Nodup ∧
    (create_session ⟨4723, 4724, 2, 1800⟩ .ok "u1" 5 none none initial_state).2.used_ports =
      (ports_of (create_session ⟨4723, 4724, 2, 1800⟩ .ok "u1" 5 none none
        initial_state).2.sessions).toFinset ∧
    (create_session ⟨4723, 4724, 2, 1800⟩ .ok "u1" 5 none none
        initial_state).2.used_ports.card =
      (create_session ⟨4723, 4724, 2, 1800⟩ .ok "u1" 5 none none
        initial_state).2.sessions.length :=
  reachable_ports_bijective _ _
    (Relation.ReflTransGen.single (PoolStep.create .ok "u1" 5 none none initial_state rfl))

/-- C4: in every reachable state of a pool whose configured max_sessions
is a nonnegative count and whose port range is inclusive (start ≤ end),
the number of live records is at most min(max_sessions, end - start + 1). -/
theorem reachable_count_le_min (cfg : PoolConfig) (s : PoolState) (h : Reachable cfg s)
    (hm : 0 ≤ cfg.max_sessions) (hr : cfg.port_range_start ≤ cfg.port_range_end) :
    (s.sessions.length : Int) ≤
      min cfg.max_sessions ((cfg.port_range_end : Int) - cfg.port_range_start + 1) := by
  have inv := poolInv_reachable h
  have h1 : (s.sessions.length : Int) ≤ cfg.max_sessions := by
    have hc := inv.count_le
    rw [max_eq_left hm] at hc
    exact hc
  have hclen : s.used_ports.card = s.sessions.length := by
    rw [inv.ports_eq, List.toFinset_card_of_nodup inv.ports_nodup]
    simp [ports_of]
  have h2 : s.sessions.length ≤ (available_ports cfg).length := by
    calc s.sessions.length = s.used_ports.card := hclen.symm
      _ ≤ (available_ports cfg).toFinset.card := Finset.card_le_card inv.ports_range
      _ ≤ (available_ports cfg).length := List.toFinset_card_le _
  have h3 : (available_ports cfg).length = cfg.port_range_end + 1 - cfg.port_range_start := by
    simp [available_ports]
  rw [le_min_iff]
  refine ⟨h1, ?_⟩
  rw [h3] at h2
  omega

/-- Closed instance of the C4 theorem after one create step: one record,
bounded by min(2, 2). -/
theorem reachable_count_le_min_witness :
    ((create_session ⟨4723, 4724, 2, 1800⟩ .ok "u1" 5 none none
        initial_state).2.sessions.length : Int) ≤
      min (2 : Int) ((4724 : Int) - 4723 + 1) :=
  reachable_count_le_min ⟨4723, 4724, 2, 1800⟩ _
    (Relation.ReflTransGen.single (PoolStep.create .ok "u1" 5 none none initial_state rfl))
    (by decide) (by decide)

/-- A delete with a non-raising stop erases exactly the key's binding from
the sessions dict (a no-op when the key is unknown). -/
theorem delete_session_false_sessions (sid : String) (s : PoolState) :
    (delete_session false sid s).2.sessions = eraseKey sid s.sessions := by
  cases hl : dictGet s.sessions sid with
  | none =>
    rw [delete_session_unknown _ _ _ hl]
    exact (eraseKey_of_not_mem ((dictGet_eq_none_iff _ _).mp hl)).symm
  | some info =>
    simp [delete_session, hl]

theorem eraseKey_eq_filter (k : String) (l : List (String × SessionInfo)) :
    eraseKey k l = l.filter (fun kv => decide (kv.1 ≠ k)) := by
  induction l with
  | nil => rfl
  | cons kv rest ih =>
    by_cases h : kv.1 = k
    · simp [eraseKey, h, ih, List.filter_cons]
    · simp [eraseKey, h, ih, List.filter_cons]

/-- Folding non-raising deletes over an id list filters out exactly the
bindings whose key is in that list. -/
theorem foldl_delete_filter (ids : List String) :
    ∀ s : PoolState,
      (ids.foldl (fun st sid => (delete_session false sid st).2) s).sessions =
        s.sessions.filter (fun kv => decide (kv.1 ∉ ids)) := by
  induction ids with
  | nil =>
    intro s
    simp
  | cons sid rest ih =>
    intro s
    rw [List.foldl_cons, ih, delete_session_false_sessions, eraseKey_eq_filter,
      List.filter_filter]
    apply List.filter_congr
    intro kv hmem
    by_cases h1 : kv.1 = sid <;> by_cases h2 : kv.1 ∈ rest <;> simp [h1, h2]

/-- The key looked up maps to a binding of the dict. -/
theorem mem_of_dictGet {l : List (String × SessionInfo)} {k : String} {v : SessionInfo}
    (h : dictGet l k = some v) : (k, v) ∈ l := by
  induction l with
  | nil => simp [dictGet] at h
  | cons kv rest ih =>
    obtain ⟨k1, v1⟩ := kv
    rw [dictGet] at h
    by_cases hk : k1 = k
    · rw [if_pos hk] at h
      injection h with h
      subst h
      subst hk
      exact List.mem_cons_self _ _
    · rw [if_neg hk] at h
      exact List.mem_cons_of_mem _ (ih h)

/-- Membership in the collected expired ids, phrased on the bindings. -/
theorem mem_expired_ids {timeout now : Nat} {s : PoolState} {sid : String} :
    sid ∈ expired_ids timeout now s ↔
      ∃ kv, kv ∈ s.sessions ∧ kv.1 = sid ∧ timeout < now - kv.2.last_used := by
  constructor
  · intro h
    obtain ⟨kv, hkv, hsid⟩ := List.mem_map.mp h
    obtain ⟨hmem, hp⟩ := List.mem_filter.mp hkv
    exact ⟨kv, hmem, hsid, of_decide_eq_true hp⟩
  · intro ⟨kv, hmem, hsid, hexp⟩
    exact List.mem_map.mpr ⟨kv, List.mem_filter.mpr ⟨hmem, decide_eq_true hexp⟩, hsid⟩

/-- A filter whose predicate rejects every binding of a key hides that key
from lookup. -/
theorem dictGet_filter_none {l : List (String × SessionInfo)} {k : String}
    {p : String × SessionInfo → Bool} (h : ∀ v, p (k, v) = false) :
    dictGet (l.filter p) k = none := by
  induction l with
  | nil => rfl
  | cons kv rest ih =>
    obtain ⟨k1, v1⟩ := kv
    rw [List.filter_cons]
    by_cases hp : p (k1, v1) = true
    · rw [if_pos hp, dictGet]
      by_cases hk : k1 = k
      · subst hk
        rw [h v1] at hp
        exact absurd hp (by simp)
      · rw [if_neg hk]
        exact ih
    · rw [if_neg hp]
      exact ih

/-- A filter whose predicate accepts every binding of a key preserves its
lookup. -/
theorem dictGet_filter_of_key_holds {l : List (String × SessionInfo)} {k : String}
    {p : String × SessionInfo → Bool} (h : ∀ v, p (k, v) = true) :
    dictGet (l.filter p) k = dictGet l k := by
  induction l with
  | nil => rfl
  | cons kv rest ih =>
    obtain ⟨k1, v1⟩ := kv
    rw [List.filter_cons]
    by_cases hk : k1 = k
    · subst hk
      rw [if_pos (h v1), dictGet, if_pos rfl, dictGet, if_pos rfl]
    · by_cases hp : p (k1, v1) = true
      · rw [if_pos hp, dictGet, if_neg hk, ih, dictGet, if_neg hk]
      · rw [if_neg hp, ih, dictGet, if_neg hk]

/-- C9 counterexample: the sample session has been idle 1861 s at the
pass, more than session_timeout (1800) plus the 60 s cadence, yet after
the eviction pass it is still in the registry, because its backend stop
raised and delete_session then leaves the record in place. -/
theorem cleanup_pass_keeps_expired_on_stop_exn :
    1800 + 60 < 1861 - sampleInfo.last_used ∧
    "sid-1" ∈ expired_ids 1800 1861 sampleState ∧
    dictGet (cleanup_pass (fun _ => true) 1800 1861 sampleState).sessions "sid-1" =
      some sampleInfo := by
  decide

/-- C9 (amended): an eviction pass collects under the lock exactly the ids
whose idle time now - last_used strictly exceeds session_timeout and
deletes each via the public delete_session; provided the backend stops do
not raise, each expired record is absent afterwards and each unexpired
record survives with its binding unchanged. -/
theorem cleanup_pass_evicts_expired (timeout now : Nat) (s : PoolState)
    (hnd : (s.sessions.map Prod.fst).Nodup) :
    (∀ sid, sid ∈ expired_ids timeout now s ↔
      ∃ info, dictGet s.sessions sid = some info ∧ timeout < now - info.last_used) ∧
    (∀ sid info, dictGet s.sessions sid = some info →
      dictGet (cleanup_pass (fun _ => false) timeout now s).sessions sid =
        if timeout < now - info.last_used then none else some info) := by
  have hchar : ∀ sid, sid ∈ expired_ids timeout now s ↔
      ∃ info, dictGet s.sessions sid = some info ∧ timeout < now - info.last_used := by
    intro sid
    rw [mem_expired_ids]
    constructor
    · intro ⟨kv, hmem, hsid, hexp⟩
      refine ⟨kv.2, ?_, hexp⟩
      have : (sid, kv.2) ∈ s.sessions := by
        rw [← hsid]
        exact hmem
      exact dictGet_of_mem_nodup hnd this
    · intro ⟨info, hget, hexp⟩
      exact ⟨(sid, info), mem_of_dictGet hget, rfl, hexp⟩
  refine ⟨hchar, ?_⟩
  intro sid info hget
  have hsess : (cleanup_pass (fun _ => false) timeout now s).sessions =
      s.sessions.filter (fun kv => decide (kv.1 ∉ expired_ids timeout now s)) :=
    foldl_delete_filter _ s
  rw [hsess]
  by_cases hexp : timeout < now - info.last_used
  · rw [if_pos hexp]
    have hin : sid ∈ expired_ids timeout now s := (hchar sid).mpr ⟨info, hget, hexp⟩
    apply dictGet_filter_none
    intro v
    simp [hin]
  · rw [if_neg hexp]
    have hout : sid ∉ expired_ids timeout now s := by
      intro hin
      obtain ⟨info2, hget2, hexp2⟩ := (hchar sid).mp hin
      rw [hget] at hget2
      injection hget2 with hget2
      subst hget2
      exact hexp hexp2
    rw [dictGet_filter_of_key_holds (fun v => by simp [hout]), hget]

/-- Closed instance of the C9 theorem: with a non-raising stop, the
expired sample session is gone after the pass. -/
theorem cleanup_pass_evicts_expired_witness :
    dictGet (cleanup_pass (fun _ => false) 1800 1861 sampleState).sessions "sid-1" =
      (if 1800 < 1861 - sampleInfo.last_used then none else some sampleInfo) :=
  (cleanup_pass_evicts_expired 1800 1861 sampleState (by decide)).2 "sid-1" sampleInfo
    (by decide)
